import Mathlib

/-!
Verification development for the ShazamGo fingerprint-and-match engine.

The definitions below are a shallow embedding of the Go source:

* `internal/fingerprint` (in `cmd/server/main.go`'s fingerprint section):
  `GenerateSpectogram`, `ExtractPeaks`, `GenerateHashes`;
* `internal/matcher` (`part_002`, second revision): `RegisterSong`,
  `GetSongName`, `Match`'s offset-bucket vote accumulation, `NewDB`,
  `saveSongMetadata`, `appendHashesToFile`, `loadSongsFromFile`,
  `loadHashesFromFile`, `normalizeSongID`.

Modelling conventions:

* Go `int` is `ℤ`; Go `uint32` values are `ℕ` (wrapped by `goUint32`,
  which performs the mod-2^32 conversion Go applies); Go `float64`
  quantities (timestamps, magnitudes) are `ℚ`, i.e. the arithmetic is
  taken exact.  `float64` round-trips through the binary log losslessly,
  so `ℚ` timestamps replay exactly as the Go ones do.
* Go maps that the claims treat as collections of entries are embedded
  as lists of pairs; Go map iteration order is arbitrary, and every
  theorem below is insensitive to it (membership / multiset statements).
* The worker pool in `GenerateHashes` partitions anchors; the multiset
  of emitted (anchor, target, hash, time) tuples is independent of the
  scheduling, so the embedding enumerates anchors sequentially.
-/

namespace ShazamGo

/-- Peak from `ExtractPeaks` (`type Peak struct { Time int; Freq int }`). -/
structure Peak where
  Time : ℤ
  Freq : ℤ
deriving DecidableEq

/-- Constant `fftWindowSize = 4096`. -/
def fftWindowSize : ℕ := 4096

/-- Constant `fftOverLap = 2048`. -/
def fftOverLap : ℕ := 2048

/-- Constant `peakNeighborhood = 10`. -/
def peakNeighborhood : ℤ := 10

/-- Constant `targetZoneHeight = 90`. -/
def targetZoneHeight : ℤ := 90

/-- Constant `targetZoneWidth = 45`. -/
def targetZoneWidth : ℤ := 45

/-- Go conversion `uint32(z)` of an `int`: two's-complement wrap into `[0, 2^32)`. -/
def goUint32 (z : ℤ) : ℕ := (z % (2 ^ 32 : ℤ)).toNat

/-- The hash pack exactly as written in `GenerateHashes` (main.go:849):
`(uint32(anchor.Freq) << 22) | (uint32(target.Freq) << 12) | uint32(timeDelta)`.
Each `uint32` shift keeps only the low 32 bits; there is no `& 0x3FF` /
`& 0xFFF` masking in the source. -/
def goHashPack (fa fp dt : ℤ) : ℕ :=
  Nat.lor (Nat.lor ((goUint32 fa * 2 ^ 22) % 2 ^ 32) ((goUint32 fp * 2 ^ 12) % 2 ^ 32))
    (goUint32 dt)

/-- Modelled from the spec (§6 bit layout), for the C1 refinement comparison:
`hash = (f_a & 0x3FF) << 22 | (f_p & 0x3FF) << 12 | (δt & 0xFFF)`. -/
def specHashPack (fa fp dt : ℤ) : ℕ :=
  Nat.lor (Nat.lor ((goUint32 fa % 1024) * 2 ^ 22) ((goUint32 fp % 1024) * 2 ^ 12))
    (goUint32 dt % 4096)

/-- One (anchor, target) pairing emitted by `GenerateHashes` into its
results channel, with the packed hash and the anchor time in seconds. -/
structure Emission where
  anchor : Peak
  target : Peak
  hash : ℕ
  anchorTime : ℚ
deriving DecidableEq

/-- Anchor time `float64(anchor.Time*(fftWindowSize-fftOverLap)) / float64(sampleRate)`
(main.go:850). -/
def anchorSeconds (sampleRate : ℤ) (t : ℤ) : ℚ :=
  ((t * ((fftWindowSize : ℤ) - (fftOverLap : ℤ)) : ℤ) : ℚ) / ((sampleRate : ℤ) : ℚ)

/-- The emissions of `GenerateHashes` (main.go:843-857).  For each anchor
index, the inner loop walks the following peaks and stops at the first
whose time distance exceeds `targetZoneHeight` (the Go loop condition is a
break, embedded as `takeWhile`); targets within `targetZoneWidth` bins of
the anchor frequency are paired and packed.  The worker pool only
distributes anchors, so the emitted multiset is this list. -/
def GenerateHashes (sampleRate : ℤ) : List Peak → List Emission
  | [] => []
  | a :: rest =>
      (((rest.takeWhile fun p => p.Time - a.Time ≤ targetZoneHeight).filter
          fun p => |p.Freq - a.Freq| ≤ targetZoneWidth).map
        fun p =>
          ⟨a, p, goHashPack a.Freq p.Freq (p.Time - a.Time), anchorSeconds sampleRate a.Time⟩)
        ++ GenerateHashes sampleRate rest

/-- Sorted-by-(time, freq) order on peaks, the order in which
`ExtractPeaks` emits them (row-major scan). -/
def peakLE (a b : Peak) : Prop :=
  a.Time < b.Time ∨ (a.Time = b.Time ∧ a.Freq ≤ b.Freq)

instance : DecidableRel peakLE := fun a b => by
  unfold peakLE
  infer_instance

/-- The magnitude threshold `0.00000000000000001` of `ExtractPeaks`
(main.go:804), i.e. `10^-17`, written as a raw rational so that it is a
normal form the kernel can compare against. -/
def peakEps : ℚ := ⟨1, 10 ^ 17, by norm_num, Nat.coprime_one_left _⟩

/-- Bounds-checked spectrogram access, as in the Go neighborhood loop
(main.go:811): out-of-range indices (negative, past the row count, or past
the — possibly ragged — row length) yield `none` and are skipped. -/
def getCell (spec : List (List ℚ)) (r c : ℤ) : Option ℚ :=
  if 0 ≤ r ∧ 0 ≤ c then
    match spec[r.toNat]? with
    | some row => row[c.toNat]?
    | none => none
  else none

/-- The 21 × 21 grid of neighborhood offsets scanned by the `nr`/`nc`
loops, `nr` from `r-10` to `r+10` outer, `nc` inner (main.go:809-818). -/
def neighborOffsets : List (ℤ × ℤ) :=
  (List.range 21).flatMap fun (a : ℕ) =>
    (List.range 21).map fun (b : ℕ) => ((a : ℤ) - 10, (b : ℤ) - 10)

/-- The running maximum `maxVal` of the Go neighborhood scan, seeded with
the centre value and raised by every strictly greater in-bounds neighbor. -/
def maxNeighbor (spec : List (List ℚ)) (r c : ℤ) (v : ℚ) : ℚ :=
  neighborOffsets.foldl
    (fun m d =>
      match getCell spec (r + d.1) (c + d.2) with
      | some w => if m < w then w else m
      | none => m)
    v

/-- A cell passes `ExtractPeaks`' test iff it meets the magnitude threshold
and equals the neighborhood maximum (main.go:804, 819); the comparison is
`==` against `maxVal`, i.e. ≥-tolerant against every neighbor regardless of
scan order — the source has no strict-inequality tie-break. -/
def cellIsPeak (spec : List (List ℚ)) (r c : ℤ) (v : ℚ) : Bool :=
  if v < peakEps then false else v = maxNeighbor spec r c v

/-- `ExtractPeaks` (main.go:788-828): row-major scan emitting each cell
that passes `cellIsPeak`.  The Go loops index `spectrogram[r][c]` always in
bounds; the embedding uses the defaulted access `getD` on the in-range
indices supplied by `List.range`, which agrees with the Go access there. -/
def ExtractPeaks (spec : List (List ℚ)) : List Peak :=
  (List.range spec.length).flatMap fun (r : ℕ) =>
    (List.range (spec.getD r []).length).filterMap fun (c : ℕ) =>
      if cellIsPeak spec (r : ℤ) (c : ℤ) ((spec.getD r []).getD c 0) then
        some ⟨(r : ℤ), (c : ℤ)⟩
      else none

/-- The Hann window of `GenerateSpectogram` (main.go:684-691):
`hann[i] = 0.5 * (1 - cos(2π·i/(W-1)))`.  The cosine comes from the Go
`math` library, a collaborator outside the core; it is abstracted as
`cosTwoPi`, where `cosTwoPi x` stands for `cos(2π·x)`.  (The `W = 1`
branch of the source is dead: `fftWindowSize` is the constant 4096.) -/
def hannWindow (cosTwoPi : ℚ → ℚ) : List ℚ :=
  (List.range fftWindowSize).map fun (i : ℕ) =>
    1 / 2 * (1 - cosTwoPi ((i : ℚ) / ((fftWindowSize : ℚ) - 1)))

/-- The frame loop of `GenerateSpectogram` (main.go:710-769):
`for i := 0; i <= size-fftWindowSize; i += fftWindowSize-fftOverLap`.
Each iteration copies `monoSamples[i : i+W]`, multiplies pointwise by the
Hann window, applies the collaborator FFT `fftc` (gonum
`fourier.NewFFT(4096).Coefficients`, returning (re, im) pairs) and maps
`sqrtf (re² + im²)` (`sqrtf` abstracts Go `math.Sqrt`). -/
def spectroLoop (fftc : List ℚ → List (ℚ × ℚ)) (sqrtf : ℚ → ℚ) (hann : List ℚ)
    (samples : List ℚ) (i : ℕ) : List (List ℚ) :=
  if i + fftWindowSize ≤ samples.length then
    ((fftc (((samples.drop i).take fftWindowSize).zipWith (fun a b => a * b) hann)).map
        fun z => sqrtf (z.1 * z.1 + z.2 * z.2))
      :: spectroLoop fftc sqrtf hann samples (i + (fftWindowSize - fftOverLap))
  else []
termination_by samples.length - i
decreasing_by
  simp only [fftWindowSize, fftOverLap] at *
  omega

/-- `GenerateSpectogram` (main.go:667-781), abstracted over the three
collaborator functions (cosine, FFT, square root). -/
def GenerateSpectogram (cosTwoPi : ℚ → ℚ) (fftc : List ℚ → List (ℚ × ℚ))
    (sqrtf : ℚ → ℚ) (monoSamples : List ℚ) : List (List ℚ) :=
  spectroLoop fftc sqrtf (hannWindow cosTwoPi) monoSamples 0

/-- An in-memory inverted-index entry: the hash key together with the
`Match` struct fields `SongID` and `Timestamp` (part_002:245-248).  The Go
map `map[uint32][]Match` is flattened to one list in insertion order; the
slice `f.db[h]` is the sublist of entries whose first component is `h`. -/
abbrev IndexEntry := ℕ × ℤ × ℚ

/-- `FingerprintDB` (part_002:250-254): inverted index plus song-name
table.  The Go `map[int]string` is an association list with unique keys,
updated by `songsInsert`. -/
structure FingerprintDB where
  db : List IndexEntry
  songs : List (ℤ × String)
deriving DecidableEq

/-- `normalizeSongID` (part_002:304-312). -/
def normalizeSongID (id : ℤ) : ℤ :=
  if id < 0 then -id else if id = 0 then 1 else id

/-- Go map assignment `m[k] = v`: replace the entry for `k` or add one. -/
def songsInsert : List (ℤ × String) → ℤ → String → List (ℤ × String)
  | [], k, v => [(k, v)]
  | p :: rest, k, v => if p.1 = k then (k, v) :: rest else p :: songsInsert rest k v

/-- Go map lookup `m[k]` with the zero value `""` for a missing key. -/
def lookupSong (l : List (ℤ × String)) (k : ℤ) : String :=
  match l.find? fun p => p.1 == k with
  | some p => p.2
  | none => ""

/-- `GetSongName` (part_002:295-301): normalizes the ID, then looks the
positive ID up in the in-memory table. -/
def GetSongName (s : FingerprintDB) (songID : ℤ) : String :=
  lookupSong s.songs (normalizeSongID songID)

/-- The persistent `songs.json` as seen by the loader: missing, present
but not valid JSON, or a parsed id → name table (keys already decoded from
their decimal strings). -/
inductive JsonFile where
  | absent
  | corrupt
  | content (entries : List (ℤ × String))
deriving DecidableEq

/-- The persistent state: `songs.json` and `hashes.db`.  The binary log is
its list of complete 16-byte records plus the byte length of a trailing
fragment (`0` for a well-formed log; the file's byte length is
`16·|records| + trailing`).  `float64` timestamps round-trip the log
exactly, so records carry the `ℚ` values.  Appends model `O_APPEND` on a
well-formed log, which is the only kind the register path encounters. -/
structure Files where
  songsJson : JsonFile
  hashLog : Option (List IndexEntry × ℕ)
deriving DecidableEq

/-- Which file operations fail during one register call; `none`/`false`
everywhere is a failure-free run.  `appendWriteFailsAt = some k` makes the
record-write loop of `appendHashesToFile` fail while writing record `k`
(records `0..k-1` are already in the file). -/
structure FailPlan where
  saveMkdirFails : Bool
  saveWriteFails : Bool
  appendMkdirFails : Bool
  appendOpenFails : Bool
  appendWriteFailsAt : Option ℕ
deriving DecidableEq

/-- The failure-free plan. -/
def okPlan : FailPlan := ⟨false, false, false, false, none⟩

/-- The merge base `saveSongMetadata` reads back from `songs.json`
(part_002:441-453): a read error or unparsable JSON is silently ignored
(the `err` of `json.Unmarshal` is discarded), leaving the base empty. -/
def jsonEntries : JsonFile → List (ℤ × String)
  | .content l => l
  | _ => []

/-- `saveSongMetadata` (part_002:434-471): re-read the JSON, insert the
normalized ID, rewrite the whole file.  Returns the new files and whether
an error was returned. -/
def saveSongMetadata (plan : FailPlan) (files : Files) (songID : ℤ)
    (songName : String) : Files × Bool :=
  if plan.saveMkdirFails then (files, true)
  else
    let songs := songsInsert (jsonEntries files.songsJson) (normalizeSongID songID) songName
    if plan.saveWriteFails then (files, true)
    else ({ files with songsJson := .content songs }, false)

/-- `appendHashesToFile` (part_002:499-530): open with `O_APPEND|O_CREATE`
(creating an empty log if absent), normalize the song ID, then write one
16-byte record per map entry; a mid-loop failure leaves the records
already written in the file. -/
def appendHashesToFile (plan : FailPlan) (files : Files) (songID : ℤ)
    (hashes : List (ℕ × ℚ)) : Files × Bool :=
  if plan.appendMkdirFails then (files, true)
  else if plan.appendOpenFails then (files, true)
  else
    let log := files.hashLog.getD ([], 0)
    let pid := normalizeSongID songID
    match plan.appendWriteFailsAt with
    | some k =>
        if k < hashes.length then
          ({ files with
              hashLog := some (log.1 ++ (hashes.take k).map fun p => (p.1, pid, p.2), log.2) },
            true)
        else
          ({ files with
              hashLog := some (log.1 ++ hashes.map fun p => (p.1, pid, p.2), log.2) },
            false)
    | none =>
        ({ files with
            hashLog := some (log.1 ++ hashes.map fun p => (p.1, pid, p.2), log.2) },
          false)

/-- `RegisterSong` (part_002:268-293): store the raw ID and name in
memory, append the entries in memory, then `saveSongMetadata` followed by
`appendHashesToFile`; the first failing step aborts with an error, with no
rollback of the in-memory or on-disk effects already applied. -/
def RegisterSong (plan : FailPlan) (s : FingerprintDB) (files : Files) (songID : ℤ)
    (songName : String) (hashes : List (ℕ × ℚ)) : FingerprintDB × Files × Bool :=
  let s1 : FingerprintDB :=
    { db := s.db ++ hashes.map fun p => (p.1, songID, p.2),
      songs := songsInsert s.songs songID songName }
  match saveSongMetadata plan files songID songName with
  | (files1, true) => (s1, files1, true)
  | (files1, false) =>
      let r := appendHashesToFile plan files1 songID hashes
      (s1, r.1, r.2)

/-- `loadSongsFromFile` (part_002:474-496): absent file is fine, bad JSON
is an error (nothing loaded), otherwise every entry is inserted under its
normalized ID. -/
def loadSongsFromFile (files : Files) (s : FingerprintDB) : FingerprintDB × Bool :=
  match files.songsJson with
  | .absent => (s, false)
  | .corrupt => (s, true)
  | .content l =>
      ({ s with songs := l.foldl (fun acc p => songsInsert acc (normalizeSongID p.1) p.2) s.songs },
        false)

/-- `loadHashesFromFile` (part_002:533-579): replay every complete record
(with normalized song ID) into memory; a trailing fragment makes the final
`binary.Read` fail with a non-EOF error, which is returned — after the
complete records have already been appended to `f.db`. -/
def loadHashesFromFile (files : Files) (s : FingerprintDB) : FingerprintDB × Bool :=
  match files.hashLog with
  | none => (s, false)
  | some l =>
      ({ s with db := s.db ++ l.1.map fun r => (r.1, normalizeSongID r.2.1, r.2.2) },
        l.2 != 0)

/-- `LoadFromFiles` (part_002:423-431): songs first; a songs error skips
the hash replay entirely. -/
def LoadFromFiles (files : Files) (s : FingerprintDB) : FingerprintDB × Bool :=
  match loadSongsFromFile files s with
  | (s1, true) => (s1, true)
  | (s1, false) => loadHashesFromFile files s1

/-- The empty in-memory state `NewDB` starts from (part_002:256-260). -/
def emptyDB : FingerprintDB := ⟨[], []⟩

/-- `NewDB` (part_002:256-266).  The boolean records whether the
"Warning: Could not load database files" message was printed; the
constructor returns the (possibly partially loaded) database either way. -/
def NewDB (files : Files) : FingerprintDB × Bool :=
  LoadFromFiles files emptyDB

/-- The complete records currently in the log file. -/
def logRecords (files : Files) : List IndexEntry :=
  match files.hashLog with
  | none => []
  | some l => l.1

/-- The trailing-fragment byte count of the log file. -/
def trailingOf (files : Files) : ℕ :=
  match files.hashLog with
  | none => 0
  | some l => l.2

/-- ID normalization applied to a whole record, as done on the write path
(part_002:513) and the replay path (part_002:568). -/
def normEntry (e : IndexEntry) : IndexEntry := (e.1, normalizeSongID e.2.1, e.2.2)

/-- `lookup`: the in-memory slice `f.db[h]`, and the in-memory list length
the round-trip claims speak about. -/
def countUnder (s : FingerprintDB) (h : ℕ) : ℕ :=
  (s.db.filter fun e => e.1 == h).length

/-- Sequential register calls (each with the failure-free plan), as in a
run of the server process. -/
def registerAll : List (ℤ × String × List (ℕ × ℚ)) → FingerprintDB → Files → FingerprintDB × Files
  | [], s, files => (s, files)
  | e :: rest, s, files =>
      let r := RegisterSong okPlan s files e.1 e.2.1 e.2.2
      registerAll rest r.1 r.2.1

/-- The files of a fresh deployment: nothing on disk yet. -/
def initialFiles : Files := ⟨.absent, none⟩

/-- The guard of the HTTP handler `handleAdd` (main.go:107-110): it — not
the store — rejects an empty fingerprint map. -/
def handleAddRejectsEmpty (hashes : List (ℕ × ℚ)) : Bool :=
  hashes.length == 0

/-- Go conversion `int(x)` of a `float64`: truncation toward zero,
embedded on `ℚ` as the truncating division of numerator by denominator. -/
def qTrunc (q : ℚ) : ℤ := Int.tdiv q.num (q.den : ℤ)

/-- Constant `offsetTolerance = 0.5` (part_002:242). -/
def offsetTolerance : ℚ := 1 / 2

/-- The offset bucket of `Match` (part_002:372-374):
`offsetBucket := int(offset / offsetTolerance)`. -/
def offsetBucket (offset : ℚ) : ℤ := qTrunc (offset / offsetTolerance)

/-- The multiset of `(songID, offsetBucket)` vote keys accumulated by
`Match` (part_002:364-381): for each query pair and each entry of
`f.db[queryHash]`, one vote under the bucketed offset; `offsetMatches` is
the key-count map of this list. -/
def matchVoteKeys (db : List IndexEntry) (query : List (ℕ × ℚ)) : List (ℤ × ℤ) :=
  query.flatMap fun (q : ℕ × ℚ) =>
    (db.filter fun e => e.1 == q.1).map fun e => (e.2.1, offsetBucket (q.2 - e.2.2))

/-- The invariant connecting memory to the files during failure-free
operation: the JSON is readable, in-memory IDs are positive, the log holds
exactly the normalized image of the in-memory index, and the log has no
trailing fragment. -/
def StoreInv (s : FingerprintDB) (files : Files) : Prop :=
  files.songsJson ≠ JsonFile.corrupt ∧ (∀ e ∈ s.db, 0 < e.2.1) ∧
    logRecords files = s.db.map normEntry ∧ trailingOf files = 0

/-- Every emission of `GenerateHashes` on a (time, freq)-sorted peak list
has `0 ≤ δt ≤ 90` and `|Δf| ≤ 45`.  (Shared bound lemma; note the lower
bound is `0 ≤ δt`, not `0 < δt`: the source has no strictness check.) -/
theorem emission_bounds (sr : ℤ) (peaks : List Peak) (hsorted : peaks.Pairwise peakLE)
    (e : Emission) (he : e ∈ GenerateHashes sr peaks) :
    0 ≤ e.target.Time - e.anchor.Time ∧ e.target.Time - e.anchor.Time ≤ targetZoneHeight ∧
      |e.target.Freq - e.anchor.Freq| ≤ targetZoneWidth := by
  induction peaks with
  | nil => simp [GenerateHashes] at he
  | cons a rest ih =>
    rw [GenerateHashes, List.mem_append] at he
    rcases he with he | he
    · rw [List.mem_map] at he
      obtain ⟨p, hp, rfl⟩ := he
      have hpfilter := hp
      rw [List.mem_filter] at hpfilter
      obtain ⟨hptake, hpfreq⟩ := hpfilter
      have hple : p.Time - a.Time ≤ targetZoneHeight := by
        have := List.mem_takeWhile_imp hptake
        simpa using this
      have hpmem : p ∈ rest := (List.takeWhile_sublist _).mem hptake
      have hord : peakLE a p := (List.pairwise_cons.mp hsorted).1 p hpmem
      have htime : a.Time ≤ p.Time := by
        rcases hord with h | ⟨h, _⟩
        · exact le_of_lt h
        · exact le_of_eq h
      refine ⟨by simpa using htime, hple, by simpa using hpfreq⟩
    · exact ih (List.pairwise_cons.mp hsorted).2 he

/-- Every emission's hash field is the source's pack of its own anchor and
target coordinates. -/
theorem emission_hash (sr : ℤ) (peaks : List Peak) (e : Emission)
    (he : e ∈ GenerateHashes sr peaks) :
    e.hash = goHashPack e.anchor.Freq e.target.Freq (e.target.Time - e.anchor.Time) := by
  induction peaks with
  | nil => simp [GenerateHashes] at he
  | cons a rest ih =>
    rw [GenerateHashes, List.mem_append] at he
    rcases he with he | he
    · rw [List.mem_map] at he
      obtain ⟨p, _, rfl⟩ := he
      rfl
    · exact ih he

/-- The unmasked pack agrees with the spec's masked pack whenever each
field value fits its field width. -/
theorem goHashPack_eq_specHashPack (fa fp dt : ℤ) (ha0 : 0 ≤ fa) (ha : fa < 1024)
    (hp0 : 0 ≤ fp) (hp : fp < 1024) (hd0 : 0 ≤ dt) (hd : dt < 4096) :
    goHashPack fa fp dt = specHashPack fa fp dt := by
  have hfa : goUint32 fa = fa.toNat := by
    unfold goUint32
    rw [Int.emod_eq_of_lt ha0 (by omega)]
  have hfp : goUint32 fp = fp.toNat := by
    unfold goUint32
    rw [Int.emod_eq_of_lt hp0 (by omega)]
  have hdt : goUint32 dt = dt.toNat := by
    unfold goUint32
    rw [Int.emod_eq_of_lt hd0 (by omega)]
  have hfa' : fa.toNat < 1024 := by omega
  have hfp' : fp.toNat < 1024 := by omega
  have hdt' : dt.toNat < 4096 := by omega
  unfold goHashPack specHashPack
  rw [hfa, hfp, hdt]
  rw [Nat.mod_eq_of_lt (a := fa.toNat * 2 ^ 22) (by omega),
    Nat.mod_eq_of_lt (a := fp.toNat * 2 ^ 12) (by omega),
    Nat.mod_eq_of_lt hfa', Nat.mod_eq_of_lt hfp', Nat.mod_eq_of_lt hdt']

/-- C1, corrected.  The source packs without masking, so the emitted hash
equals the spec formula `(f_a & 0x3FF) << 22 | (f_p & 0x3FF) << 12 | (δt & 0xFFF)`
exactly when both frequency bins fit the 10-bit field (`< 1024`); the claim's
range "up to B − 1 = 2048" is too wide (see the counterexample). -/
theorem C1_pack_matches_spec_when_fields_fit (sr : ℤ) (peaks : List Peak)
    (e : Emission) (he : e ∈ GenerateHashes sr peaks)
    (hsorted : peaks.Pairwise peakLE)
    (ha0 : 0 ≤ e.anchor.Freq) (ha : e.anchor.Freq < 1024)
    (hp0 : 0 ≤ e.target.Freq) (hp : e.target.Freq < 1024) :
    e.hash = specHashPack e.anchor.Freq e.target.Freq (e.target.Time - e.anchor.Time) := by
  obtain ⟨hd0, hd, _⟩ := emission_bounds sr peaks hsorted e he
  rw [emission_hash sr peaks e he]
  exact goHashPack_eq_specHashPack _ _ _ ha0 ha hp0 hp hd0
    (lt_of_le_of_lt hd (by norm_num [targetZoneHeight]))

/-- C1 witness: a concrete emission with both frequencies below 1024, whose
hash the theorem equates with the spec's masked pack. -/
theorem C1_witness :
    ((⟨⟨0, 100⟩, ⟨1, 110⟩, goHashPack 100 110 1, anchorSeconds 44100 0⟩ : Emission)
        ∈ GenerateHashes 44100 [⟨0, 100⟩, ⟨1, 110⟩]) ∧
      (⟨⟨0, 100⟩, ⟨1, 110⟩, goHashPack 100 110 1, anchorSeconds 44100 0⟩ : Emission).hash
        = specHashPack 100 110 1 := by
  have hm : (⟨⟨0, 100⟩, ⟨1, 110⟩, goHashPack 100 110 1, anchorSeconds 44100 0⟩ : Emission)
      ∈ GenerateHashes 44100 [⟨0, 100⟩, ⟨1, 110⟩] := by
    rw [show GenerateHashes 44100 [⟨0, 100⟩, ⟨1, 110⟩]
      = [⟨⟨0, 100⟩, ⟨1, 110⟩, goHashPack 100 110 1, anchorSeconds 44100 0⟩] from rfl]
    exact List.mem_singleton.mpr rfl
  exact ⟨hm, C1_pack_matches_spec_when_fields_fit 44100 _ _ hm (by decide)
    (by decide) (by decide) (by decide) (by decide)⟩

/-- C1 counterexample: anchor freq 1000, target freq 1024 (both bins ≤ 2048,
in-zone pair with δt = 1).  The code emits hash 4198498305 — the target's
bit 10 spilled into the anchor field — while the spec's masked formula gives
4194304001.  This refutes C1 as stated. -/
theorem C1_counterexample :
    ((GenerateHashes 44100 [⟨0, 1000⟩, ⟨1, 1024⟩]).map fun e => (e.anchor, e.target, e.hash))
        = [(⟨0, 1000⟩, ⟨1, 1024⟩, 4198498305)] ∧
      specHashPack 1000 1024 1 = 4194304001 ∧
      ([(⟨0, 1000⟩ : Peak), ⟨1, 1024⟩] : List Peak).Pairwise peakLE ∧
      (4198498305 : ℕ) ≠ 4194304001 := by
  decide

/-- C2, corrected.  On a (time, freq)-sorted peak list every emitted pair
satisfies `0 ≤ δt ≤ 90` and `|Δf| ≤ 45`; the lower bound is not strict —
the source's inner loop starts at the next index with no `δt > 0` check,
so same-frame targets are paired (see the counterexample). -/
theorem C2_target_zone_bounds (sr : ℤ) (peaks : List Peak)
    (hsorted : peaks.Pairwise peakLE) (e : Emission) (he : e ∈ GenerateHashes sr peaks) :
    0 ≤ e.target.Time - e.anchor.Time ∧ e.target.Time - e.anchor.Time ≤ 90 ∧
      |e.target.Freq - e.anchor.Freq| ≤ 45 := by
  simpa [targetZoneHeight, targetZoneWidth] using emission_bounds sr peaks hsorted e he

/-- C2 witness: a concrete sorted two-peak list whose single emission the
theorem bounds. -/
theorem C2_witness :
    ((⟨⟨0, 100⟩, ⟨2, 90⟩, goHashPack 100 90 2, anchorSeconds 44100 0⟩ : Emission)
        ∈ GenerateHashes 44100 [⟨0, 100⟩, ⟨2, 90⟩]) ∧
      (0 : ℤ) ≤ 2 - 0 ∧ (2 : ℤ) - 0 ≤ 90 ∧ |(90 : ℤ) - 100| ≤ 45 := by
  have hm : (⟨⟨0, 100⟩, ⟨2, 90⟩, goHashPack 100 90 2, anchorSeconds 44100 0⟩ : Emission)
      ∈ GenerateHashes 44100 [⟨0, 100⟩, ⟨2, 90⟩] := by
    rw [show GenerateHashes 44100 [⟨0, 100⟩, ⟨2, 90⟩]
      = [⟨⟨0, 100⟩, ⟨2, 90⟩, goHashPack 100 90 2, anchorSeconds 44100 0⟩] from rfl]
    exact List.mem_singleton.mpr rfl
  exact ⟨hm, C2_target_zone_bounds 44100 _ (by decide) _ hm⟩

/-- C2 counterexample: the sorted peak list [(0,0), (0,10)] — two peaks in
the same time frame — produces an emission with `δt = 0`, refuting the
claim's `0 < P.Time − A.Time` and its "no hash for a same-frame target". -/
theorem C2_counterexample :
    ((GenerateHashes 44100 [⟨0, 0⟩, ⟨0, 10⟩]).map
        fun e => (e.anchor.Time, e.target.Time, e.hash)) = [(0, 0, 40960)] ∧
      ([(⟨0, 0⟩ : Peak), ⟨0, 10⟩] : List Peak).Pairwise peakLE := by
  decide

/-- Membership in the offset grid is exactly the |·| ≤ 10 box. -/
theorem mem_neighborOffsets (dr dc : ℤ) :
    (dr, dc) ∈ neighborOffsets ↔ |dr| ≤ 10 ∧ |dc| ≤ 10 := by
  unfold neighborOffsets
  rw [List.mem_flatMap]
  constructor
  · rintro ⟨a, ha, h⟩
    rw [List.mem_map] at h
    obtain ⟨b, hb, h⟩ := h
    rw [List.mem_range] at ha hb
    rw [Prod.mk.injEq] at h
    obtain ⟨h1, h2⟩ := h
    constructor <;> rw [abs_le] <;> constructor <;> omega
  · rintro ⟨h1, h2⟩
    rw [abs_le] at h1 h2
    refine ⟨(dr + 10).toNat, List.mem_range.mpr (by omega), ?_⟩
    rw [List.mem_map]
    refine ⟨(dc + 10).toNat, List.mem_range.mpr (by omega), ?_⟩
    rw [Prod.mk.injEq]
    constructor <;> omega

/-- The fold seed is a lower bound for the neighborhood maximum. -/
theorem le_maxNeighbor (spec : List (List ℚ)) (r c : ℤ) (v : ℚ) :
    v ≤ maxNeighbor spec r c v := by
  unfold maxNeighbor
  generalize neighborOffsets = l
  induction l generalizing v with
  | nil => simp
  | cons d rest ih =>
    rw [List.foldl_cons]
    refine le_trans ?_ (ih _)
    cases h : getCell spec (r + d.1) (c + d.2) with
    | none => simp
    | some w =>
      simp only []
      split
      · exact le_of_lt (by assumption)
      · exact le_rfl

/-- If the seed and every in-bounds neighbor are at most `b`, so is the
neighborhood maximum. -/
theorem maxNeighbor_le (spec : List (List ℚ)) (r c : ℤ) (v b : ℚ) (hv : v ≤ b)
    (h : ∀ d ∈ neighborOffsets, ∀ w, getCell spec (r + d.1) (c + d.2) = some w → w ≤ b) :
    maxNeighbor spec r c v ≤ b := by
  unfold maxNeighbor
  have : ∀ l : List (ℤ × ℤ),
      (∀ d ∈ l, ∀ w, getCell spec (r + d.1) (c + d.2) = some w → w ≤ b) →
      ∀ m : ℚ, m ≤ b →
      l.foldl
        (fun m d =>
          match getCell spec (r + d.1) (c + d.2) with
          | some w => if m < w then w else m
          | none => m)
        m ≤ b := by
    intro l
    induction l with
    | nil => intro _ m hm; simpa using hm
    | cons d rest ih =>
      intro hl m hm
      rw [List.foldl_cons]
      refine ih (fun d' hd' => hl d' (List.mem_cons_of_mem _ hd')) _ ?_
      cases hcell : getCell spec (r + d.1) (c + d.2) with
      | none => simpa using hm
      | some w =>
        simp only []
        split
        · exact hl d (List.mem_cons_self _ _) w hcell
        · exact hm
  exact this neighborOffsets h v hv

/-- A cell delivered by `getCell` is an element of some row of the matrix. -/
theorem getCell_some (spec : List (List ℚ)) (i j : ℤ) (w : ℚ)
    (h : getCell spec i j = some w) : ∃ row ∈ spec, w ∈ row := by
  unfold getCell at h
  split at h
  · cases hrow : spec[i.toNat]? with
    | none => rw [hrow] at h; simp at h
    | some row =>
      rw [hrow] at h
      exact ⟨row, List.getElem?_mem hrow, List.getElem?_mem h⟩
  · simp at h

/-- C4, corrected.  Every cell that meets the threshold and is ≥ its whole
boundary-clamped 21 × 21 neighborhood is emitted by `ExtractPeaks` — the
comparison is ≥-tolerant in every direction, so a plateau of equal
neighborhood maxima yields one peak per cell, not one per plateau (see the
counterexample). -/
theorem C4_every_qualifying_cell_emitted (spec : List (List ℚ)) (r c : ℕ)
    (row : List ℚ) (v : ℚ) (hrow : spec[r]? = some row) (hv : row[c]? = some v)
    (heps : ¬ v < peakEps)
    (hmax : ∀ dr dc : ℤ, |dr| ≤ 10 → |dc| ≤ 10 → ∀ w,
      getCell spec ((r : ℤ) + dr) ((c : ℤ) + dc) = some w → w ≤ v) :
    (⟨(r : ℤ), (c : ℤ)⟩ : Peak) ∈ ExtractPeaks spec := by
  have hpeak : cellIsPeak spec (r : ℤ) (c : ℤ) v = true := by
    unfold cellIsPeak
    rw [if_neg heps]
    have h1 : v ≤ maxNeighbor spec (r : ℤ) (c : ℤ) v := le_maxNeighbor _ _ _ _
    have h2 : maxNeighbor spec (r : ℤ) (c : ℤ) v ≤ v := by
      refine maxNeighbor_le _ _ _ _ _ le_rfl ?_
      intro d hd w hw
      obtain ⟨da, db⟩ := d
      obtain ⟨hd1, hd2⟩ := (mem_neighborOffsets da db).mp hd
      exact hmax da db hd1 hd2 w hw
    exact decide_eq_true (le_antisymm h1 h2)
  have hrowD : spec.getD r [] = row := by
    rw [List.getD_eq_getElem?_getD, hrow]
    rfl
  have hvD : row.getD c 0 = v := by
    rw [List.getD_eq_getElem?_getD, hv]
    rfl
  unfold ExtractPeaks
  rw [List.mem_flatMap]
  refine ⟨r, List.mem_range.mpr (List.getElem?_eq_some_iff.mp hrow).1, ?_⟩
  rw [List.mem_filterMap]
  refine ⟨c, ?_, ?_⟩
  · rw [hrowD]
    exact List.mem_range.mpr (List.getElem?_eq_some_iff.mp hv).1
  · rw [hrowD, hvD]
    simp [hpeak]

/-- C4 witness: in the all-ones 1 × 1 matrix the unique cell qualifies and
is emitted. -/
theorem C4_witness :
    (([[(1 : ℚ)]] : List (List ℚ))[0]? = some [(1 : ℚ)]) ∧
      (([(1 : ℚ)] : List ℚ)[0]? = some (1 : ℚ)) ∧ ¬ (1 : ℚ) < peakEps ∧
      (⟨0, 0⟩ : Peak) ∈ ExtractPeaks [[(1 : ℚ)]] := by
  refine ⟨rfl, rfl, by decide, ?_⟩
  refine C4_every_qualifying_cell_emitted [[(1 : ℚ)]] 0 0 [(1 : ℚ)] 1 rfl rfl (by decide) ?_
  intro dr dc _ _ w hw
  obtain ⟨row, hrowmem, hwmem⟩ := getCell_some _ _ _ _ hw
  have : row = [(1 : ℚ)] := by simpa using hrowmem
  subst this
  have : w = (1 : ℚ) := by simpa using hwmem
  simp [this]

set_option maxRecDepth 10000 in
/-- C4 counterexample: the 2 × 1 spectrogram [[1], [1]] is a single maximal
plateau — both cells hold magnitude 1 and each is a maximum of its clamped
21 × 21 neighborhood — yet `ExtractPeaks` emits both cells, not only the
earliest-time one.  This refutes "exactly one peak per plateau". -/
theorem C4_counterexample :
    ExtractPeaks [[(1 : ℚ)], [(1 : ℚ)]] = [⟨0, 0⟩, ⟨1, 0⟩] := by
  decide

/-- Row count of the frame loop, for any start index. -/
theorem spectroLoop_length (fftc : List ℚ → List (ℚ × ℚ)) (sqrtf : ℚ → ℚ)
    (hann : List ℚ) (samples : List ℚ) (i : ℕ) :
    (spectroLoop fftc sqrtf hann samples i).length =
      if i + fftWindowSize ≤ samples.length then
        (samples.length - fftWindowSize - i) / (fftWindowSize - fftOverLap) + 1
      else 0 := by
  have H : ∀ n i, samples.length - i = n →
      (spectroLoop fftc sqrtf hann samples i).length =
        if i + fftWindowSize ≤ samples.length then
          (samples.length - fftWindowSize - i) / (fftWindowSize - fftOverLap) + 1
        else 0 := by
    intro n
    induction n using Nat.strong_induction_on with
    | _ n ih =>
      intro i hn
      unfold spectroLoop
      split
      · next h =>
        rw [List.length_cons]
        rw [ih (samples.length - (i + (fftWindowSize - fftOverLap)))
          (by simp only [fftWindowSize, fftOverLap] at *; omega) _ rfl]
        simp only [fftWindowSize, fftOverLap] at *
        split
        · next h2 => omega
        · next h2 => omega
      · next h => rfl
  exact H (samples.length - i) i rfl

/-- Every row of the frame loop is the magnitude map of the FFT of a
window-sized chunk. -/
theorem spectroLoop_rows (fftc : List ℚ → List (ℚ × ℚ)) (sqrtf : ℚ → ℚ)
    (hann : List ℚ) (hhann : hann.length = fftWindowSize) (samples : List ℚ) (i : ℕ)
    (row : List ℚ) (hrow : row ∈ spectroLoop fftc sqrtf hann samples i) :
    ∃ chunk : List ℚ, chunk.length = fftWindowSize ∧
      row = (fftc chunk).map fun z => sqrtf (z.1 * z.1 + z.2 * z.2) := by
  have H : ∀ n i, samples.length - i = n →
      ∀ row ∈ spectroLoop fftc sqrtf hann samples i,
      ∃ chunk : List ℚ, chunk.length = fftWindowSize ∧
        row = (fftc chunk).map fun z => sqrtf (z.1 * z.1 + z.2 * z.2) := by
    intro n
    induction n using Nat.strong_induction_on with
    | _ n ih =>
      intro i hn row hrow
      rw [spectroLoop] at hrow
      split at hrow
      · next h =>
        rw [List.mem_cons] at hrow
        rcases hrow with hrow | hrow
        · refine ⟨((samples.drop i).take fftWindowSize).zipWith (fun a b => a * b) hann,
            ?_, hrow⟩
          rw [List.length_zipWith, List.length_take, List.length_drop, hhann]
          omega
        · exact ih (samples.length - (i + (fftWindowSize - fftOverLap)))
            (by simp only [fftWindowSize, fftOverLap] at *; omega) _ rfl row hrow
      · simp at hrow
  exact H (samples.length - i) i rfl (row) hrow

/-- C8, confirmed.  Under the collaborator contracts — the gonum real FFT
returns `W/2 + 1` coefficient pairs for a `W`-sample input, and `math.Sqrt`
is non-negative on non-negative input — `GenerateSpectogram` returns
`⌊(N − 4096)/2048⌋ + 1` rows when `N ≥ 4096` and none otherwise, every row
has length 2049, every magnitude is non-negative, and the matrix is empty
iff `N < 4096`. -/
theorem C8_spectrogram_shape (cosTwoPi : ℚ → ℚ) (fftc : List ℚ → List (ℚ × ℚ))
    (sqrtf : ℚ → ℚ) (samples : List ℚ)
    (hfft : ∀ l : List ℚ, l.length = 4096 → (fftc l).length = 2049)
    (hsqrt : ∀ x : ℚ, 0 ≤ x → 0 ≤ sqrtf x) :
    (GenerateSpectogram cosTwoPi fftc sqrtf samples).length =
        (if 4096 ≤ samples.length then (samples.length - 4096) / 2048 + 1 else 0) ∧
      (∀ row ∈ GenerateSpectogram cosTwoPi fftc sqrtf samples, row.length = 2049) ∧
      (∀ row ∈ GenerateSpectogram cosTwoPi fftc sqrtf samples, ∀ x ∈ row, 0 ≤ x) ∧
      (GenerateSpectogram cosTwoPi fftc sqrtf samples = [] ↔ samples.length < 4096) := by
  have hhann : (hannWindow cosTwoPi).length = fftWindowSize := by
    unfold hannWindow
    rw [List.length_map, List.length_range]
  have hlen := spectroLoop_length fftc sqrtf (hannWindow cosTwoPi) samples 0
  have hrows : ∀ row ∈ GenerateSpectogram cosTwoPi fftc sqrtf samples,
      ∃ chunk : List ℚ, chunk.length = fftWindowSize ∧
        row = (fftc chunk).map fun z => sqrtf (z.1 * z.1 + z.2 * z.2) :=
    fun row hrow => spectroLoop_rows fftc sqrtf _ hhann samples 0 row hrow
  refine ⟨?_, ?_, ?_, ?_⟩
  · rw [GenerateSpectogram, hlen]
    simp only [fftWindowSize, fftOverLap]
    split
    · next h => omega
    · next h => rfl
  · intro row hrow
    obtain ⟨chunk, hc, rfl⟩ := hrows row hrow
    rw [List.length_map, hfft chunk (by simpa [fftWindowSize] using hc)]
  · intro row hrow x hx
    obtain ⟨chunk, hc, rfl⟩ := hrows row hrow
    rw [List.mem_map] at hx
    obtain ⟨z, _, rfl⟩ := hx
    exact hsqrt _ (add_nonneg (mul_self_nonneg _) (mul_self_nonneg _))
  · rw [GenerateSpectogram, ← List.length_eq_zero, hlen]
    simp only [fftWindowSize, fftOverLap]
    split
    · next h => omega
    · next h => omega

/-- C8 witness: with a constant-zero cosine, an FFT stub returning 2049
zero pairs, the identity for the square root and 4096 zero samples, the
theorem yields exactly one row of length 2049. -/
theorem C8_witness :
    (GenerateSpectogram (fun _ => 0) (fun _ => List.replicate 2049 ((0 : ℚ), (0 : ℚ)))
        (fun x => x) (List.replicate 4096 (0 : ℚ))).length = 1 ∧
      ∀ row ∈ GenerateSpectogram (fun _ => 0)
          (fun _ => List.replicate 2049 ((0 : ℚ), (0 : ℚ)))
          (fun x => x) (List.replicate 4096 (0 : ℚ)), row.length = 2049 := by
  have h := C8_spectrogram_shape (fun _ => 0)
    (fun _ => List.replicate 2049 ((0 : ℚ), (0 : ℚ))) (fun x => x)
    (List.replicate 4096 (0 : ℚ))
    (fun l _ => by rw [List.length_replicate])
    (fun x hx => hx)
  refine ⟨?_, h.2.1⟩
  rw [h.1]
  rw [List.length_replicate, if_pos (by omega)]

/-- Go float-to-int conversion is the floor on non-negative rationals. -/
theorem qTrunc_of_nonneg (q : ℚ) (h : 0 ≤ q) : qTrunc q = ⌊q⌋ := by
  unfold qTrunc
  rw [Int.tdiv_eq_ediv (Rat.num_nonneg.mpr h) (by positivity), Rat.floor_def]

/-- Go float-to-int conversion is the ceiling on negative rationals. -/
theorem qTrunc_of_neg (q : ℚ) (h : q < 0) : qTrunc q = ⌈q⌉ := by
  unfold qTrunc
  have h1 : q.num = -(-q).num := by rw [Rat.num_neg_eq_neg_num]; ring
  rw [h1, Int.neg_tdiv,
    Int.tdiv_eq_ediv (by rw [Rat.num_neg_eq_neg_num]; have := Rat.num_neg.mpr h; omega)
      (by positivity)]
  have h2 : ((q.den : ℤ)) = ((-q).den : ℤ) := by rw [Rat.den_neg_eq_den]
  rw [h2, ← Rat.floor_def, Int.floor_neg, neg_neg]

/-- C3, corrected.  Each vote examined by `Match` is accumulated under
`int(offset / 0.5)`, Go's truncation toward zero: that is the floor of
`offset / 0.5` only for non-negative offsets; for negative offsets
(query taken from later in the reference) it is the ceiling, one bucket
above the claimed floor whenever the quotient is fractional. -/
theorem C3_votes_truncate_toward_zero (db : List IndexEntry) (query : List (ℕ × ℚ))
    (k : ℤ × ℤ) (hk : k ∈ matchVoteKeys db query) :
    ∃ h : ℕ, ∃ tq : ℚ, ∃ sid : ℤ, ∃ tdb : ℚ,
      (h, tq) ∈ query ∧ (h, sid, tdb) ∈ db ∧
      k = (sid, offsetBucket (tq - tdb)) ∧
      (tdb ≤ tq → k.2 = ⌊(tq - tdb) / offsetTolerance⌋) ∧
      (tq < tdb → k.2 = ⌈(tq - tdb) / offsetTolerance⌉) := by
  unfold matchVoteKeys at hk
  rw [List.mem_flatMap] at hk
  obtain ⟨q, hq, hk⟩ := hk
  rw [List.mem_map] at hk
  obtain ⟨e, he, rfl⟩ := hk
  obtain ⟨hedb, heq⟩ := List.mem_filter.mp he
  have heq' : e.1 = q.1 := by simpa using heq
  refine ⟨q.1, q.2, e.2.1, e.2.2, hq, ?_, rfl, ?_, ?_⟩
  · rw [← heq']
    exact hedb
  · intro hle
    show offsetBucket (q.2 - e.2.2) = _
    unfold offsetBucket
    rw [qTrunc_of_nonneg _ (div_nonneg (by linarith) (by norm_num [offsetTolerance]))]
  · intro hlt
    show offsetBucket (q.2 - e.2.2) = _
    unfold offsetBucket
    rw [qTrunc_of_neg _ (div_neg_of_neg_of_pos (by linarith) (by norm_num [offsetTolerance]))]

/-- C3 witness: a query exactly aligned with a stored entry; the single
vote key is delivered by the theorem with its floor characterization. -/
theorem C3_witness :
    (((1 : ℤ), offsetBucket ((1 : ℚ) - 0)) ∈ matchVoteKeys [(5, 1, 0)] [(5, 1)]) ∧
      (∃ h : ℕ, ∃ tq : ℚ, ∃ sid : ℤ, ∃ tdb : ℚ,
        (h, tq) ∈ [((5 : ℕ), (1 : ℚ))] ∧ (h, sid, tdb) ∈ [((5 : ℕ), (1 : ℤ), (0 : ℚ))] ∧
        ((1 : ℤ), offsetBucket ((1 : ℚ) - 0)) = (sid, offsetBucket (tq - tdb)) ∧
        (tdb ≤ tq →
          ((1 : ℤ), offsetBucket ((1 : ℚ) - 0)).2 = ⌊(tq - tdb) / offsetTolerance⌋) ∧
        (tq < tdb →
          ((1 : ℤ), offsetBucket ((1 : ℚ) - 0)).2 = ⌈(tq - tdb) / offsetTolerance⌉)) := by
  have hm : ((1 : ℤ), offsetBucket ((1 : ℚ) - 0)) ∈ matchVoteKeys [(5, 1, 0)] [(5, 1)] := by
    rw [show matchVoteKeys [(5, 1, 0)] [(5, 1)]
      = [((1 : ℤ), offsetBucket ((1 : ℚ) - 0))] from rfl]
    exact List.mem_singleton.mpr rfl
  exact ⟨hm, C3_votes_truncate_toward_zero _ _ _ hm⟩

/-- C3 counterexample: query time 0 against a stored time 3/4 gives offset
−3/4; the code buckets the single vote at `int(−1.5) = −1`, while the
claimed mathematical floor is −2. -/
theorem C3_counterexample :
    matchVoteKeys [(5, 1, 3 / 4)] [(5, 0)] = [(1, -1)] ∧
      ⌊(((0 : ℚ) - 3 / 4) / offsetTolerance)⌋ = -2 := by
  have harg : (-(3 / 4) : ℚ) / offsetTolerance = -(3 / 2) := by
    norm_num [offsetTolerance]
  have hb : offsetBucket (-(3 / 4) : ℚ) = -1 := by
    unfold offsetBucket
    rw [qTrunc_of_neg _ (by rw [harg]; norm_num), harg, Int.ceil_neg]
    norm_num
  constructor
  · unfold matchVoteKeys
    simp [hb]
  · rw [show ((0 : ℚ) - 3 / 4) = -(3 / 4) from by norm_num, harg]
    norm_num

/-- Looking up the key just inserted by a Go-map assignment returns the
assigned value. -/
theorem lookupSong_insert (l : List (ℤ × String)) (k : ℤ) (v : String) :
    lookupSong (songsInsert l k v) k = v := by
  induction l with
  | nil => simp [songsInsert, lookupSong]
  | cons p rest ih =>
    by_cases hp : p.1 = k
    · simp [songsInsert, hp, lookupSong]
    · rw [songsInsert, if_neg hp]
      rw [lookupSong, List.find?_cons_of_neg _ (by simpa using hp)]
      exact ih

/-- C6, corrected.  A log whose byte length is not a multiple of 16 makes
`loadHashesFromFile` return an error, but `NewDB` only prints a warning:
it still returns a database holding every complete record (normalized),
i.e. the process starts with the partially loaded index. -/
theorem C6_corrupt_log_only_warns (recs : List IndexEntry) (trailing : ℕ)
    (h : trailing ≠ 0) :
    NewDB ⟨JsonFile.absent, some (recs, trailing)⟩
      = (⟨recs.map normEntry, []⟩, true) := by
  unfold NewDB LoadFromFiles loadSongsFromFile loadHashesFromFile emptyDB normEntry
  simp [h]

/-- C6 witness: a 24-byte log (one record plus an 8-byte fragment) loads
its one record and merely warns. -/
theorem C6_witness :
    (8 : ℕ) ≠ 0 ∧
      NewDB ⟨JsonFile.absent, some ([(9, 2, 0)], 8)⟩ = (⟨[(9, 2, 0)], []⟩, true) :=
  ⟨by decide, (C6_corrupt_log_only_warns [(9, 2, 0)] 8 (by decide)).trans rfl⟩

/-- C6 counterexample: a 21-byte log (16-byte record plus 5 trailing
bytes) is corrupt by the claim, yet `NewDB` returns a database whose index
contains the record — construction neither fails nor refuses to start, and
the in-memory index is partially loaded. -/
theorem C6_counterexample :
    (16 + 5) % 16 ≠ 0 ∧
      NewDB ⟨JsonFile.absent, some ([(7, 3, 1)], 5)⟩ = (⟨[(7, 3, 1)], []⟩, true) := by
  constructor
  · decide
  · rfl

/-- C5, corrected.  When the JSON rewrite succeeds and the log append
fails at record `k`, `RegisterSong` returns an error but rolls nothing
back: the rewritten `songs.json` (updated before the log) persists, the
`k` records already appended persist — the log is never truncated — and
the in-memory index keeps all the new entries. -/
theorem C5_failed_write_no_rollback (s : FingerprintDB) (files : Files) (songID : ℤ)
    (songName : String) (hashes : List (ℕ × ℚ)) (k : ℕ) (plan : FailPlan)
    (h1 : plan.saveMkdirFails = false) (h2 : plan.saveWriteFails = false)
    (h3 : plan.appendMkdirFails = false) (h4 : plan.appendOpenFails = false)
    (h5 : plan.appendWriteFailsAt = some k) (h6 : k < hashes.length) :
    (RegisterSong plan s files songID songName hashes).2.2 = true ∧
      (RegisterSong plan s files songID songName hashes).2.1.songsJson
        = JsonFile.content
            (songsInsert (jsonEntries files.songsJson) (normalizeSongID songID) songName) ∧
      logRecords (RegisterSong plan s files songID songName hashes).2.1
        = logRecords files
            ++ (hashes.take k).map (fun p => (p.1, normalizeSongID songID, p.2)) ∧
      (RegisterSong plan s files songID songName hashes).1.db
        = s.db ++ hashes.map fun p => (p.1, songID, p.2) := by
  unfold RegisterSong saveSongMetadata appendHashesToFile
  rw [h1, h2, h3, h4, h5]
  simp only [Bool.false_eq_true, if_false, if_pos h6]
  cases hlog : files.hashLog with
  | none => simp [logRecords, hlog]
  | some l => simp [logRecords, hlog]

/-- C5 witness: one fingerprint, append fails on its first record; the
theorem reports the returned error at this concrete instance. -/
theorem C5_witness :
    (0 : ℕ) < ([((7 : ℕ), (1 : ℚ))] : List (ℕ × ℚ)).length ∧
      (RegisterSong ⟨false, false, false, false, some 0⟩ emptyDB
          ⟨JsonFile.content [], some ([], 0)⟩ 1 ("a") [(7, 1)]).2.2 = true := by
  refine ⟨by decide, ?_⟩
  exact (C5_failed_write_no_rollback emptyDB ⟨JsonFile.content [], some ([], 0)⟩ 1 ("a")
    [(7, 1)] 0 ⟨false, false, false, false, some 0⟩ rfl rfl rfl rfl rfl (by decide)).1

/-- C5 counterexample: with an empty store on disk, registering one
fingerprint while the log write fails returns an error, yet the persistent
state is not "unchanged as if the register never happened": `songs.json`
now contains the song (the code rewrites it before the log append, retries
nothing and truncates nothing). -/
theorem C5_counterexample :
    RegisterSong ⟨false, false, false, false, some 0⟩ emptyDB
        ⟨JsonFile.content [], some ([], 0)⟩ 1 ("a") [(7, 1)]
      = (⟨[(7, 1, 1)], [(1, ("a"))]⟩, ⟨JsonFile.content [(1, ("a"))], some ([], 0)⟩, true) ∧
      (⟨JsonFile.content [(1, ("a"))], some ([], 0)⟩ : Files)
        ≠ ⟨JsonFile.content [], some ([], 0)⟩ := by
  constructor
  · rfl
  · decide

/-- `normalizeSongID` always returns a positive ID. -/
theorem normalizeSongID_pos (id : ℤ) : 0 < normalizeSongID id := by
  unfold normalizeSongID
  by_cases h : id < 0
  · rw [if_pos h]
    omega
  · rw [if_neg h]
    by_cases hz : id = 0
    · rw [if_pos hz]
      omega
    · rw [if_neg hz]
      omega

/-- Normalization is the identity on entries with positive IDs. -/
theorem normEntry_of_pos (e : IndexEntry) (h : 0 < e.2.1) : normEntry e = e := by
  obtain ⟨h1, id, t⟩ := e
  replace h : 0 < id := h
  show ((h1, normalizeSongID id, t) : IndexEntry) = (h1, id, t)
  unfold normalizeSongID
  rw [if_neg (by omega), if_neg (by omega)]

/-- Normalization is idempotent on entries. -/
theorem normEntry_idem (e : IndexEntry) : normEntry (normEntry e) = normEntry e :=
  normEntry_of_pos (normEntry e) (normalizeSongID_pos e.2.1)

/-- The one-step behavior of a failure-free `RegisterSong`: memory gains
the raw entries and the raw name key, `songs.json` is rewritten with the
normalized key, the log gains the normalized records, and no error is
returned. -/
theorem registerSong_ok (s : FingerprintDB) (files : Files) (songID : ℤ)
    (songName : String) (hashes : List (ℕ × ℚ)) :
    RegisterSong okPlan s files songID songName hashes
      = (⟨s.db ++ hashes.map fun p => (p.1, songID, p.2),
          songsInsert s.songs songID songName⟩,
        ⟨JsonFile.content
            (songsInsert (jsonEntries files.songsJson) (normalizeSongID songID) songName),
          some (logRecords files ++ hashes.map fun p => (p.1, normalizeSongID songID, p.2),
            trailingOf files)⟩,
        false) := by
  obtain ⟨json, log⟩ := files
  cases log with
  | none => rfl
  | some l => rfl

/-- Replaying the log appends the normalized records to the index. -/
theorem loadHashes_db (files : Files) (s : FingerprintDB) :
    (loadHashesFromFile files s).1.db = s.db ++ (logRecords files).map normEntry := by
  obtain ⟨json, log⟩ := files
  cases log with
  | none => simp [loadHashesFromFile, logRecords]
  | some l => rfl

/-- Loading the song table never touches the index. -/
theorem loadSongs_db (files : Files) (s : FingerprintDB) :
    (loadSongsFromFile files s).1.db = s.db := by
  obtain ⟨json, log⟩ := files
  cases json <;> rfl

/-- A failure-free register with a positive ID preserves the store
invariant. -/
theorem registerSong_preserves_inv (s : FingerprintDB) (files : Files) (songID : ℤ)
    (songName : String) (hashes : List (ℕ × ℚ)) (hid : 0 < songID)
    (hinv : StoreInv s files) :
    StoreInv (RegisterSong okPlan s files songID songName hashes).1
      (RegisterSong okPlan s files songID songName hashes).2.1 := by
  obtain ⟨hjson, hpos, hlog, htrail⟩ := hinv
  rw [registerSong_ok]
  refine ⟨by simp, ?_, ?_, ?_⟩
  · intro e he
    rw [List.mem_append] at he
    rcases he with he | he
    · exact hpos e he
    · rw [List.mem_map] at he
      obtain ⟨p, _, rfl⟩ := he
      exact hid
  · show logRecords files ++ hashes.map (fun p => (p.1, normalizeSongID songID, p.2))
      = (s.db ++ hashes.map fun p => (p.1, songID, p.2)).map normEntry
    rw [List.map_append, List.map_map, hlog]
    rfl
  · exact htrail

/-- Replaying the files of an invariant-satisfying state reconstructs the
in-memory index exactly. -/
theorem newDB_restores_inv (s : FingerprintDB) (files : Files)
    (hinv : StoreInv s files) :
    (NewDB files).1.db = s.db := by
  obtain ⟨hjson, hpos, hlog, htrail⟩ := hinv
  have hload : ∀ t : FingerprintDB,
      (loadHashesFromFile files t).1.db = t.db ++ (s.db.map normEntry).map normEntry := by
    intro t
    rw [loadHashes_db, hlog]
  unfold NewDB LoadFromFiles
  have hfix : (s.db.map normEntry).map normEntry = s.db := by
    rw [List.map_map, show (normEntry ∘ normEntry) = normEntry from funext normEntry_idem]
    exact (List.map_congr_left fun e he => normEntry_of_pos e (hpos e he)).trans
      (List.map_id _)
  cases hj : files.songsJson with
  | absent =>
    have h1 : loadSongsFromFile files emptyDB = (emptyDB, false) := by
      unfold loadSongsFromFile
      rw [hj]
    rw [h1]
    rw [hload emptyDB, hfix]
    rfl
  | corrupt => exact absurd hj hjson
  | content l =>
    have h1 : loadSongsFromFile files emptyDB
        = (⟨emptyDB.db,
            l.foldl (fun acc p => songsInsert acc (normalizeSongID p.1) p.2) emptyDB.songs⟩,
          false) := by
      unfold loadSongsFromFile
      rw [hj]
    rw [h1]
    rw [hload _, hfix]
    rfl

/-- C7, corrected.  After any failure-free register history whose song IDs
are all positive, replaying the log from a restart reproduces the
in-memory index list exactly (hence the per-hash multisets agree).  With a
non-positive ID the replayed entries carry the normalized (absolute-value,
zero-to-one) ID while the pre-restart memory holds the raw one — see the
counterexample. -/
theorem C7_replay_restores_index_for_positive_ids
    (hist : List (ℤ × String × List (ℕ × ℚ))) (hpos : ∀ e ∈ hist, 0 < e.1) :
    (NewDB (registerAll hist emptyDB initialFiles).2).1.db
      = (registerAll hist emptyDB initialFiles).1.db := by
  have H : ∀ hist : List (ℤ × String × List (ℕ × ℚ)), (∀ e ∈ hist, 0 < e.1) →
      ∀ s files, StoreInv s files →
      StoreInv (registerAll hist s files).1 (registerAll hist s files).2 := by
    intro hist
    induction hist with
    | nil => intro _ s files hinv; exact hinv
    | cons e rest ih =>
      intro hp s files hinv
      rw [registerAll]
      exact ih (fun x hx => hp x (List.mem_cons_of_mem _ hx)) _ _
        (registerSong_preserves_inv s files e.1 e.2.1 e.2.2
          (hp e (List.mem_cons_self _ _)) hinv)
  have hinit : StoreInv emptyDB initialFiles := by
    refine ⟨by simp [initialFiles], by simp [emptyDB], ?_, ?_⟩
    · rfl
    · rfl
  exact newDB_restores_inv _ _ (H hist hpos emptyDB initialFiles hinit)

/-- C7 witness: two registers with positive IDs; replay returns the same
two-entry index list. -/
theorem C7_witness :
    (∀ e ∈ [((3 : ℤ), ("a"), [((7 : ℕ), (1 : ℚ))]), ((4 : ℤ), ("b"), [((7 : ℕ), (2 : ℚ))])],
        0 < e.1) ∧
      (NewDB (registerAll [((3 : ℤ), ("a"), [((7 : ℕ), (1 : ℚ))]),
            ((4 : ℤ), ("b"), [((7 : ℕ), (2 : ℚ))])] emptyDB initialFiles).2).1.db
        = (registerAll [((3 : ℤ), ("a"), [((7 : ℕ), (1 : ℚ))]),
            ((4 : ℤ), ("b"), [((7 : ℕ), (2 : ℚ))])] emptyDB initialFiles).1.db :=
  ⟨by decide, C7_replay_restores_index_for_positive_ids _ (by decide)⟩

/-- C7 counterexample: registering under song ID −5 stores `(7, −5, 1)` in
memory but the log (and hence the replayed index) holds the normalized
`(7, 5, 1)`: the per-hash multisets differ after restart. -/
theorem C7_counterexample :
    (registerAll [(-5, ("x"), [(7, 1)])] emptyDB initialFiles).1.db = [(7, -5, 1)] ∧
      (NewDB (registerAll [(-5, ("x"), [(7, 1)])] emptyDB initialFiles).2).1.db
        = [(7, 5, 1)] ∧
      ((7, -5, 1) : IndexEntry) ∉ ([((7 : ℕ), (5 : ℤ), (1 : ℚ))] : List IndexEntry) := by
  refine ⟨rfl, rfl, ?_⟩
  decide

/-- `normalizeSongID` is the identity on positive IDs. -/
theorem normalizeSongID_of_pos (id : ℤ) (h : 0 < id) : normalizeSongID id = id := by
  unfold normalizeSongID
  rw [if_neg (by omega), if_neg (by omega)]

/-- Under a hash that occurs once in the fingerprint map, a register adds
exactly one entry to the in-memory list. -/
theorem filter_register_entries (hashes : List (ℕ × ℚ)) (songID : ℤ) (p : ℕ × ℚ)
    (hp : p ∈ hashes) (hnodup : (hashes.map Prod.fst).Nodup) :
    ((hashes.map fun q => ((q.1, songID, q.2) : IndexEntry)).filter
      fun e => e.1 == p.1).length = 1 := by
  rw [List.filter_map, List.length_map]
  have h1 : (hashes.filter fun q => ((fun e : IndexEntry => e.1 == p.1) ∘
      fun q => ((q.1, songID, q.2) : IndexEntry)) q) = hashes.filter fun q => q.1 == p.1 := rfl
  rw [h1, ← List.countP_eq_length_filter]
  have h2 : (List.countP (fun q => q.1 == p.1) hashes)
      = List.countP (· == p.1) (hashes.map Prod.fst) := by
    rw [List.countP_map]
    rfl
  rw [h2, ← List.count]
  exact List.count_eq_one_of_mem hnodup (List.mem_map_of_mem Prod.fst hp)

/-- C9, corrected.  For a positive song ID and a database holding no prior
entries under the hashes of `H`, registering the same `H` twice leaves
each of its per-hash lists twice as long as after the first call, and
`GetSongName` still returns the name.  For `song_id ≤ 0` the name clause
fails (memory stores the raw key but `GetSongName` looks up the normalized
one), and with pre-existing entries the doubling fails — see the
counterexample. -/
theorem C9_double_register (s : FingerprintDB) (files : Files) (songID : ℤ)
    (songName : String) (hashes : List (ℕ × ℚ)) (hid : 0 < songID)
    (hnodup : (hashes.map Prod.fst).Nodup)
    (hfresh : ∀ p ∈ hashes, countUnder s p.1 = 0) :
    (∀ p ∈ hashes,
      countUnder (RegisterSong okPlan
          (RegisterSong okPlan s files songID songName hashes).1
          (RegisterSong okPlan s files songID songName hashes).2.1
          songID songName hashes).1 p.1
        = 2 * countUnder (RegisterSong okPlan s files songID songName hashes).1 p.1) ∧
      GetSongName (RegisterSong okPlan
          (RegisterSong okPlan s files songID songName hashes).1
          (RegisterSong okPlan s files songID songName hashes).2.1
          songID songName hashes).1 songID = songName := by
  rw [registerSong_ok, registerSong_ok]
  refine ⟨?_, ?_⟩
  · intro p hp
    unfold countUnder
    dsimp only
    rw [List.filter_append, List.filter_append, List.length_append, List.length_append]
    have h0 : (s.db.filter fun e => e.1 == p.1).length = 0 := hfresh p hp
    rw [h0, filter_register_entries hashes songID p hp hnodup]
  · unfold GetSongName
    dsimp only
    rw [normalizeSongID_of_pos songID hid, lookupSong_insert]

/-- C9 witness: a fresh store, song ID 1, one fingerprint; the theorem
yields the doubling and the preserved name at this instance. -/
theorem C9_witness :
    ((0 : ℤ) < 1 ∧ (∀ p ∈ ([((7 : ℕ), (1 : ℚ))] : List (ℕ × ℚ)), countUnder emptyDB p.1 = 0)) ∧
      ((∀ p ∈ ([((7 : ℕ), (1 : ℚ))] : List (ℕ × ℚ)),
        countUnder (RegisterSong okPlan
            (RegisterSong okPlan emptyDB initialFiles 1 ("a") [(7, 1)]).1
            (RegisterSong okPlan emptyDB initialFiles 1 ("a") [(7, 1)]).2.1
            1 ("a") [(7, 1)]).1 p.1
          = 2 * countUnder (RegisterSong okPlan emptyDB initialFiles 1 ("a") [(7, 1)]).1 p.1) ∧
      GetSongName (RegisterSong okPlan
          (RegisterSong okPlan emptyDB initialFiles 1 ("a") [(7, 1)]).1
          (RegisterSong okPlan emptyDB initialFiles 1 ("a") [(7, 1)]).2.1
          1 ("a") [(7, 1)]).1 1 = ("a")) :=
  ⟨⟨by decide, by decide⟩,
    C9_double_register emptyDB initialFiles 1 ("a") [(7, 1)] (by decide) (by decide)
      (by decide)⟩

/-- C9 counterexample: with one pre-existing entry under hash 7 and song
ID 0, the list under hash 7 has length 2 after the first register and 3
(not 4) after the second, and `GetSongName 0` returns `""`, not the
registered name. -/
theorem C9_counterexample :
    countUnder (RegisterSong okPlan
        (RegisterSong okPlan ⟨[(7, 3, 0)], []⟩ initialFiles 0 ("x") [(7, 1)]).1
        (RegisterSong okPlan ⟨[(7, 3, 0)], []⟩ initialFiles 0 ("x") [(7, 1)]).2.1
        0 ("x") [(7, 1)]).1 7 = 3 ∧
      countUnder (RegisterSong okPlan ⟨[(7, 3, 0)], []⟩ initialFiles 0 ("x") [(7, 1)]).1 7
        = 2 ∧
      (3 : ℕ) ≠ 2 * 2 ∧
      GetSongName (RegisterSong okPlan
          (RegisterSong okPlan ⟨[(7, 3, 0)], []⟩ initialFiles 0 ("x") [(7, 1)]).1
          (RegisterSong okPlan ⟨[(7, 3, 0)], []⟩ initialFiles 0 ("x") [(7, 1)]).2.1
          0 ("x") [(7, 1)]).1 0 = ("") ∧
      ("" : String) ≠ ("x") := by
  refine ⟨rfl, rfl, by decide, rfl, by decide⟩

/-- C10, confirmed.  On a failure-free run, `RegisterSong` with an empty
fingerprint map returns no error, adds nothing to the in-memory index or
the log records, yet stores the name in the in-memory table (under the raw
key) and rewrites `songs.json` to contain it (under the normalized key);
the empty-fingerprint rejection lives only in the HTTP handler guard. -/
theorem C10_empty_fingerprint_accepted (s : FingerprintDB) (files : Files) (songID : ℤ)
    (songName : String) :
    (RegisterSong okPlan s files songID songName []).2.2 = false ∧
      (RegisterSong okPlan s files songID songName []).1.db = s.db ∧
      logRecords (RegisterSong okPlan s files songID songName []).2.1 = logRecords files ∧
      lookupSong (RegisterSong okPlan s files songID songName []).1.songs songID = songName ∧
      (RegisterSong okPlan s files songID songName []).2.1.songsJson
        = JsonFile.content
            (songsInsert (jsonEntries files.songsJson) (normalizeSongID songID) songName) ∧
      lookupSong (jsonEntries (RegisterSong okPlan s files songID songName []).2.1.songsJson)
        (normalizeSongID songID) = songName ∧
      handleAddRejectsEmpty [] = true := by
  rw [registerSong_ok]
  refine ⟨rfl, by simp, ?_, ?_, rfl, ?_, rfl⟩
  · show logRecords ⟨JsonFile.content (songsInsert (jsonEntries files.songsJson)
        (normalizeSongID songID) songName),
      some (logRecords files ++ ([] : List (ℕ × ℚ)).map fun p => (p.1, normalizeSongID songID, p.2),
        trailingOf files)⟩ = logRecords files
    simp [logRecords]
  · exact lookupSong_insert _ _ _
  · exact lookupSong_insert _ _ _

end ShazamGo
